import Mathlib

/-!
Shallow embedding of the HomeReplication state-machine store
(`src/lib/storage/home_storage_engine.cpp`) and of the listener contract
(`include: ReplicaSetListener`), with theorems checking the specification
claims against it.

Machine integers are modelled as `Nat` (for `u32`/`u64` values, with explicit
`% 2^w` bounds where overflow matters) and `Int` (for the signed `int64_t`
LSN types).  Byte buffers are `List Nat` with every element a byte value.
-/

namespace HomeReplication

/- Source typedefs: `pba_t` is `uint64_t`, modelled as `Nat` and bounded by
`2^64` in theorems where the bound matters; `repl_lsn_t` (consensus LSN) and
`store_lsn_t` (internal log-store LSN) are `int64_t`, modelled as `Int`. -/

/-- Function `to_store_lsn` from `home_storage_engine.cpp`: store-LSN = raft LSN − 1. -/
def to_store_lsn (raft_lsn : Int) : Int := raft_lsn - 1

/-- Function `to_repl_lsn` from `home_storage_engine.cpp`: raft LSN = store-LSN + 1. -/
def to_repl_lsn (store_lsn : Int) : Int := store_lsn + 1

/-! ### Byte-level encoding

`add_free_pba_record` stores a `u32` count followed by the pbas as `u64`
values, unaligned, in the little-endian byte order of the machine.  We model a
buffer as a list of bytes and fixed-width little-endian reads and writes. -/

/-- Write `v` as `w` little-endian bytes (truncating to `v % 256^w`,
as a `w`-byte machine store does). -/
def toBytesLE : Nat → Nat → List Nat
  | 0, _ => []
  | w + 1, v => v % 256 :: toBytesLE w (v / 256)

/-- Read a little-endian byte list back as a `Nat`. -/
def fromBytesLE : List Nat → Nat
  | [] => 0
  | b :: rest => b + 256 * fromBytesLE rest

/-- Read a `u32` at byte offset `off` of a buffer, as the visitor body of
`get_free_pba_records` does with `*(r_cast<uint32_t*>(entry.bytes()))`. -/
def readU32 (bytes : List Nat) (off : Nat) : Nat :=
  fromBytesLE ((bytes.drop off).take 4)

/-- Read a `u64` at byte offset `off` of a buffer (one `*raw_ptr` read of the
pba array). -/
def readU64 (bytes : List Nat) (off : Nat) : Nat :=
  fromBytesLE ((bytes.drop off).take 8)

/-- The serialization performed by `HomeStateMachineStore::add_free_pba_record`:
`u32` count of pbas at offset 0, then each pba as a `u64` at offsets
4, 12, 20, …. -/
def serialize_free_pba_record (pbas : List Nat) : List Nat :=
  toBytesLE 4 pbas.length ++ (pbas.map (toBytesLE 8)).flatten

/-- The decoding performed by the visitor body of
`HomeStateMachineStore::get_free_pba_records`: read `num_pbas` as a `u32` at
offset 0, then read that many `u64` values starting at offset 4. -/
def deserialize_free_pba_record (bytes : List Nat) : List Nat :=
  (List.range (readU32 bytes 0)).map (fun i => readU64 bytes (4 + 8 * i))

/-! ### Basic lemmas about the byte encoding -/

theorem toBytesLE_length (w v : Nat) : (toBytesLE w v).length = w := by
  induction w generalizing v with
  | zero => rfl
  | succ k ih => simp [toBytesLE, ih]

theorem fromBytesLE_toBytesLE (w v : Nat) :
    fromBytesLE (toBytesLE w v) = v % 256 ^ w := by
  induction w generalizing v with
  | zero => simp [toBytesLE, fromBytesLE, Nat.mod_one]
  | succ k ih =>
    simp only [toBytesLE, fromBytesLE, ih]
    rw [pow_succ, mul_comm (256 ^ k) 256, Nat.mod_mul]

theorem fromBytesLE_toBytesLE_of_lt {w v : Nat} (h : v < 256 ^ w) :
    fromBytesLE (toBytesLE w v) = v := by
  rw [fromBytesLE_toBytesLE, Nat.mod_eq_of_lt h]

theorem serialize_length (pbas : List Nat) :
    (serialize_free_pba_record pbas).length = 4 + 8 * pbas.length := by
  simp only [serialize_free_pba_record, List.length_append, toBytesLE_length]
  congr 1
  induction pbas with
  | nil => simp
  | cons p rest ih => simp [ih, toBytesLE_length]; ring

/-- Reading the count field back yields the pba count, provided it fits in a
`u32` (`256^4 = 2^32`). -/
theorem readU32_serialize (pbas : List Nat) (hlen : pbas.length < 2 ^ 32) :
    readU32 (serialize_free_pba_record pbas) 0 = pbas.length := by
  have h4 : (toBytesLE 4 pbas.length).length = 4 := toBytesLE_length 4 _
  simp only [readU32, serialize_free_pba_record, List.drop_zero]
  rw [List.take_append_of_le_length (by omega), List.take_of_length_le (le_of_eq h4),
    fromBytesLE_toBytesLE_of_lt (by rw [show (256 : Nat) ^ 4 = 2 ^ 32 by norm_num]; exact hlen)]

/-- Dropping `8*i` bytes from the joined pba area lands on the encoding of the
`i`-th pba. -/
theorem join_drop_take (pbas : List Nat) (i : Nat) (hi : i < pbas.length) :
    (((pbas.map (toBytesLE 8)).flatten.drop (8 * i)).take 8)
      = toBytesLE 8 (pbas.get ⟨i, hi⟩) := by
  induction pbas generalizing i with
  | nil => simp at hi
  | cons p rest ih =>
    cases i with
    | zero =>
      have h8 : (toBytesLE 8 p).length = 8 := toBytesLE_length 8 p
      simp only [List.map_cons, List.flatten_cons, Nat.mul_zero, List.drop_zero]
      rw [List.take_append_of_le_length (by omega), List.take_of_length_le (le_of_eq h8)]
      rfl
    | succ j =>
      have h8 : (toBytesLE 8 p).length = 8 := toBytesLE_length 8 p
      have hj : j < rest.length := by simpa using hi
      have hdrop : ((toBytesLE 8 p) ++ (rest.map (toBytesLE 8)).flatten).drop (8 * (j + 1))
          = (rest.map (toBytesLE 8)).flatten.drop (8 * j) := by
        rw [show 8 * (j + 1) = (toBytesLE 8 p).length + 8 * j by omega,
          List.drop_append]
      simp only [List.map_cons, List.flatten_cons, hdrop]
      rw [ih j hj]
      rfl

/-- Reading the `u64` at offset `4 + 8*i` of the serialized record yields the
`i`-th pba, provided it fits in a `u64` (`256^8 = 2^64`). -/
theorem readU64_serialize (pbas : List Nat) (i : Nat) (hi : i < pbas.length)
    (hv : pbas.get ⟨i, hi⟩ < 2 ^ 64) :
    readU64 (serialize_free_pba_record pbas) (4 + 8 * i) = pbas.get ⟨i, hi⟩ := by
  have h4 : (toBytesLE 4 pbas.length).length = 4 := toBytesLE_length 4 _
  have hdrop : (serialize_free_pba_record pbas).drop (4 + 8 * i)
      = (pbas.map (toBytesLE 8)).flatten.drop (8 * i) := by
    simp only [serialize_free_pba_record]
    rw [show 4 + 8 * i = (toBytesLE 4 pbas.length).length + 8 * i by omega,
      List.drop_append]
  rw [readU64, hdrop, join_drop_take pbas i hi,
    fromBytesLE_toBytesLE_of_lt (by rw [show (256 : Nat) ^ 8 = 2 ^ 64 by norm_num]; exact hv)]

/-- Full encode/decode round trip, for any record whose count fits in a `u32`
and whose pbas fit in `u64`. -/
theorem free_pba_record_roundtrip (pbas : List Nat)
    (hlen : pbas.length < 2 ^ 32) (hval : ∀ p ∈ pbas, p < 2 ^ 64) :
    deserialize_free_pba_record (serialize_free_pba_record pbas) = pbas := by
  apply List.ext_get
  · simp [deserialize_free_pba_record, readU32_serialize pbas hlen]
  · intro i h1 h2
    simp only [deserialize_free_pba_record, readU32_serialize pbas hlen] at h1 ⊢
    have hi : i < pbas.length := by simpa using h1
    rw [List.get_map]
    simpa [List.get_range] using
      readU64_serialize pbas i hi (hval _ (pbas.get_mem i hi))

/-! ### The state-machine store state

`HomeStateMachineStore` owns a superblock (`home_rs_superblk`), an in-memory
copy of it, the free-pba log store and the `m_last_write_lsn` atomic.  The
log store is modelled as an association list from store-LSN to entry bytes,
kept strictly sorted by LSN (the homestore log store is index-addressed and
iterated in LSN order); sortedness appears as a hypothesis where needed.
We additionally track the durability frontier of the log store, `durable_upto`
(the largest store-LSN known flushed), to give `flush_sync` an observable
effect; `flush_sync` on the invalid sentinel is a no-op per the LogStore
collaborator contract. -/

/-- Superblock `home_rs_superblk`: `{uuid, commit_lsn, free_pba_store_id}`.  The uuid is
never inspected by the store; we model its 16 bytes as a `Nat`. -/
structure home_rs_superblk where
  uuid : Nat
  commit_lsn : Int
  free_pba_store_id : Nat
deriving DecidableEq, Repr

/-- The homestore invalid-LSN sentinel, passed to `flush_sync` when there is
nothing to flush (external collaborator constant; any value no valid
store-LSN (≥ 0) ever takes works, the source only compares against it). -/
def invalid_lsn : Int := -1

/-- State of one `HomeStateMachineStore`. -/
structure HomeStateMachineStore where
  /-- Field `m_sb_in_mem`, the in-memory superblock copy. -/
  sb_in_mem : home_rs_superblk
  /-- content of `m_free_pba_store`: (store-LSN, entry bytes), sorted by LSN. -/
  free_pba_entries : List (Int × List Nat)
  /-- Field `m_last_write_lsn` (a consensus LSN; 0 when none). -/
  last_write_lsn : Int
  /-- modelled durability frontier of the free-pba log store. -/
  durable_upto : Int
deriving DecidableEq, Repr

/-- Insert an entry into the sorted log-store content, overwriting any entry
already at that LSN (a log store write is addressed by LSN). -/
def logWrite : List (Int × List Nat) → Int → List Nat →
    List (Int × List Nat)
  | [], l, b => [(l, b)]
  | (l0, b0) :: rest, l, b =>
    if l < l0 then (l, b) :: (l0, b0) :: rest
    else if l = l0 then (l, b) :: rest
    else (l0, b0) :: logWrite rest l b

/-- Look an entry up by store-LSN. -/
def logLookup : List (Int × List Nat) → Int → Option (List Nat)
  | [], _ => none
  | (l0, b0) :: rest, l => if l0 = l then some b0 else logLookup rest l

/-- Method `HomeStateMachineStore::alloc_pbas`.  The source body is
`// TODO: Implementation pending` and returns an empty `pba_list_t`
unconditionally. -/
def alloc_pbas (_size : Nat) : List Nat := []

/-- Lock acquisitions observable on the superblock lock
(`folly::SharedMutexWritePriority m_sb_lock`): `ReadHolder` takes the shared
lock, `WriteHolder` the exclusive one. -/
inductive SbLock where
  | shared
  | exclusive
deriving DecidableEq, Repr

/-- Method `HomeStateMachineStore::commit_lsn`: under a `ReadHolder` (shared lock) on
`m_sb_lock`, set `m_sb_in_mem.commit_lsn = lsn`.  Returns the new state and
the lock kind taken. -/
def commit_lsn (s : HomeStateMachineStore) (lsn : Int) :
    HomeStateMachineStore × SbLock :=
  ({ s with sb_in_mem := { s.sb_in_mem with commit_lsn := lsn } }, SbLock.shared)

/-- Method `HomeStateMachineStore::get_last_commit_lsn`: under a `ReadHolder` (shared
lock), read `m_sb_in_mem.commit_lsn`. -/
def get_last_commit_lsn (s : HomeStateMachineStore) : Int × SbLock :=
  (s.sb_in_mem.commit_lsn, SbLock.shared)

/-- Method `HomeStateMachineStore::add_free_pba_record`: serialize the pba list,
store `lsn` into `m_last_write_lsn`, and issue `write_async` of the buffer at
`to_store_lsn lsn`.  Besides the new state we return the (store-LSN, buffer)
pair handed to `write_async`, the observable I/O of the operation. -/
def add_free_pba_record (s : HomeStateMachineStore) (lsn : Int)
    (pbas : List Nat) : HomeStateMachineStore × (Int × List Nat) :=
  let b := serialize_free_pba_record pbas
  ({ s with
      last_write_lsn := lsn,
      free_pba_entries := logWrite s.free_pba_entries (to_store_lsn lsn) b },
   (to_store_lsn lsn, b))

/-- The `foreach` visitor loop of `HomeStateMachineStore::get_free_pba_records`
over the entries at store-LSN ≥ the start, in LSN order.  Each visited entry is
decoded and passed to the visitor when `rlsn < end_lsn`; iteration continues
only while `rlsn < end_lsn - 1` (the `bool ret`).  We return the list of
visitor invocations `(rlsn, decoded pbas)`, in order. -/
def get_free_pba_records_loop (end_lsn : Int) :
    List (Int × List Nat) → List (Int × List Nat)
  | [] => []
  | (slsn, bytes) :: rest =>
    let rlsn := to_repl_lsn slsn
    let ret := decide (rlsn < end_lsn - 1)
    let emit := if rlsn < end_lsn then [(rlsn, deserialize_free_pba_record bytes)] else []
    emit ++ (if ret then get_free_pba_records_loop end_lsn rest else [])

/-- Method `HomeStateMachineStore::get_free_pba_records`: run the `foreach`
of the log store from `to_store_lsn start_lsn`, i.e. over the stored entries with
store-LSN ≥ `start_lsn − 1`. -/
def get_free_pba_records (s : HomeStateMachineStore)
    (start_lsn end_lsn : Int) : List (Int × List Nat) :=
  get_free_pba_records_loop end_lsn
    (s.free_pba_entries.filter (fun e => to_store_lsn start_lsn ≤ e.1))

/-- Method `HomeStateMachineStore::remove_free_pba_records_upto`: truncate the log
store at `to_store_lsn lsn` (removing every entry at store-LSN ≤ `lsn − 1`)
and store 0 into `m_last_write_lsn`. -/
def remove_free_pba_records_upto (s : HomeStateMachineStore)
    (lsn : Int) : HomeStateMachineStore :=
  { s with
      free_pba_entries := s.free_pba_entries.filter (fun e => to_store_lsn lsn < e.1),
      last_write_lsn := 0 }

/-- The LSN argument `flush_free_pba_records` passes to `flush_sync`:
the invalid sentinel when `m_last_write_lsn` is 0, else
`to_store_lsn m_last_write_lsn`. -/
def flush_arg (s : HomeStateMachineStore) : Int :=
  if s.last_write_lsn = 0 then invalid_lsn else to_store_lsn s.last_write_lsn

/-- Method `HomeLogStore::flush_sync` (LogStore collaborator contract, spec §4.2/§4.3):
forces durability up to the given store-LSN; on the invalid sentinel it is a
no-op. -/
def flush_sync (s : HomeStateMachineStore) (lsn : Int) :
    HomeStateMachineStore :=
  if lsn = invalid_lsn then s else { s with durable_upto := max s.durable_upto lsn }

/-- Method `HomeStateMachineStore::flush_free_pba_records`: load `m_last_write_lsn`
and `flush_sync` at the corresponding store-LSN, or at the invalid sentinel
when no write was recorded. -/
def flush_free_pba_records (s : HomeStateMachineStore) : HomeStateMachineStore :=
  flush_sync s (flush_arg s)

/-! ### Lemmas about the log-store model and the replay loop -/

theorem logLookup_logWrite (entries : List (Int × List Nat))
    (l : Int) (b : List Nat) :
    logLookup (logWrite entries l b) l = some b := by
  induction entries with
  | nil => simp [logWrite, logLookup]
  | cons e rest ih =>
    obtain ⟨l0, b0⟩ := e
    by_cases h1 : l < l0
    · simp [logWrite, logLookup, h1]
    · by_cases h2 : l = l0
      · simp [logWrite, logLookup, h1, h2]
      · have h3 : ¬ l0 = l := fun h => h2 h.symm
        simp [logWrite, logLookup, h1, h2, h3, ih]

/-- Characterization of the `foreach` loop of `get_free_pba_records` on a
strictly LSN-sorted entry list: even though the continuation flag is
`rlsn < end_lsn - 1` while the emit condition is `rlsn < end_lsn`, the
invocations are exactly the entries with consensus-LSN `< end_lsn`, in
order, with decoded payloads. -/
theorem get_free_pba_records_loop_eq (end_lsn : Int)
    (entries : List (Int × List Nat))
    (hsorted : entries.Pairwise (fun a b => a.1 < b.1)) :
    get_free_pba_records_loop end_lsn entries
      = (entries.filter (fun e => decide (to_repl_lsn e.1 < end_lsn))).map
          (fun e => (to_repl_lsn e.1, deserialize_free_pba_record e.2)) := by
  induction entries with
  | nil => simp [get_free_pba_records_loop]
  | cons e rest ih =>
    obtain ⟨slsn, bytes⟩ := e
    rw [List.pairwise_cons] at hsorted
    obtain ⟨hall, hrest⟩ := hsorted
    by_cases h1 : to_repl_lsn slsn < end_lsn - 1
    · have h2 : to_repl_lsn slsn < end_lsn := by omega
      simp [get_free_pba_records_loop, h1, h2, ih hrest]
    · have hrest_nil :
          rest.filter (fun e => decide (to_repl_lsn e.1 < end_lsn)) = [] := by
        rw [List.filter_eq_nil]
        intro a ha
        have hlt := hall a ha
        simp only [to_repl_lsn] at *
        simp only [decide_eq_true_eq, not_lt]
        omega
      by_cases h2 : to_repl_lsn slsn < end_lsn
      · simp [get_free_pba_records_loop, h1, h2, hrest_nil]
      · simp [get_free_pba_records_loop, h1, h2, hrest_nil]

/-- Characterization of `get_free_pba_records` on a strictly LSN-sorted store:
the visitor is invoked exactly for the stored records whose consensus-LSN lies
in `[start_lsn, end_lsn)`, in LSN order, with decoded payloads. -/
theorem get_free_pba_records_eq (s : HomeStateMachineStore)
    (start_lsn end_lsn : Int)
    (hsorted : s.free_pba_entries.Pairwise (fun a b => a.1 < b.1)) :
    get_free_pba_records s start_lsn end_lsn
      = (s.free_pba_entries.filter
          (fun e => decide (start_lsn ≤ to_repl_lsn e.1)
            && decide (to_repl_lsn e.1 < end_lsn))).map
          (fun e => (to_repl_lsn e.1, deserialize_free_pba_record e.2)) := by
  rw [get_free_pba_records,
    get_free_pba_records_loop_eq end_lsn _
      (hsorted.sublist (List.filter_sublist _)),
    List.filter_filter]
  congr 1
  apply List.filter_congr
  intro e _
  simp only [to_repl_lsn, to_store_lsn, Bool.and_comm, decide_eq_true_eq]
  congr 1
  simp only [decide_eq_decide]
  omega

/-! ### Concrete states used to exercise the theorems -/

/-- A store whose free-pba journal holds records at consensus-LSNs 1–5
(store-LSNs 0–4), the S6 scenario of the spec. -/
def fpjTestState : HomeStateMachineStore :=
  { sb_in_mem := { uuid := 42, commit_lsn := 0, free_pba_store_id := 7 },
    free_pba_entries :=
      [(0, serialize_free_pba_record [10]),
       (1, serialize_free_pba_record [20]),
       (2, serialize_free_pba_record [30]),
       (3, serialize_free_pba_record [40]),
       (4, serialize_free_pba_record [50])],
    last_write_lsn := 5,
    durable_upto := invalid_lsn }

/-! ### Claims -/

/-- C1: for every `start_lsn`, `end_lsn` and (sorted) stored content,
`get_free_pba_records start_lsn end_lsn` invokes the visitor exactly for the
stored records whose consensus-LSN `l` satisfies `start_lsn ≤ l < end_lsn`,
in order and with the decoded pba lists; the loop keeps iterating only while
`l < end_lsn - 1`, so the record at `l = end_lsn - 1` is still delivered but
ends the iteration, which this characterization shows is observably exact. -/
theorem C1_range_replay (s : HomeStateMachineStore) (start_lsn end_lsn : Int)
    (hsorted : s.free_pba_entries.Pairwise (fun a b => a.1 < b.1)) :
    get_free_pba_records s start_lsn end_lsn
      = (s.free_pba_entries.filter
          (fun e => decide (start_lsn ≤ to_repl_lsn e.1)
            && decide (to_repl_lsn e.1 < end_lsn))).map
          (fun e => (to_repl_lsn e.1, deserialize_free_pba_record e.2)) :=
  get_free_pba_records_eq s start_lsn end_lsn hsorted

/-- Witness for C1, the S6 scenario: with records at consensus-LSNs
{1,2,3,4,5}, `get_free_pba_records 2 5` invokes the visitor for LSNs 2, 3
and 4 and not for 5. -/
theorem C1_range_replay_witness :
    get_free_pba_records fpjTestState 2 5
      = [(2, [20]), (3, [30]), (4, [40])] := by
  rw [C1_range_replay fpjTestState 2 5 (by decide)]
  rfl

/-- C9: when `end_lsn ≤ start_lsn`, `get_free_pba_records` never invokes the
visitor, whatever the stored content: the first record visited already has
consensus-LSN `≥ start_lsn ≥ end_lsn`, so the emit condition is false and
the iteration stops at once. -/
theorem C9_replay_empty_range (s : HomeStateMachineStore)
    (start_lsn end_lsn : Int) (h : end_lsn ≤ start_lsn) :
    get_free_pba_records s start_lsn end_lsn = [] := by
  unfold get_free_pba_records
  rcases hfe : s.free_pba_entries.filter (fun e => decide (to_store_lsn start_lsn ≤ e.1))
    with _ | ⟨⟨slsn, bytes⟩, rest⟩
  · rw [hfe]; rfl
  · rw [hfe]
    have hmem : (slsn, bytes)
        ∈ s.free_pba_entries.filter (fun e => decide (to_store_lsn start_lsn ≤ e.1)) := by
      rw [hfe]; exact List.mem_cons_self _ _
    have hle : to_store_lsn start_lsn ≤ slsn := by
      simpa using (List.mem_filter.mp hmem).2
    have h1 : ¬ (to_repl_lsn slsn < end_lsn) := by
      simp only [to_repl_lsn, to_store_lsn] at *
      omega
    have h2 : ¬ (to_repl_lsn slsn < end_lsn - 1) := by
      simp only [to_repl_lsn, to_store_lsn] at *
      omega
    simp [get_free_pba_records_loop, h1, h2]

/-- Witness for C9: an empty range over the five-record store visits
nothing. -/
theorem C9_replay_empty_range_witness :
    get_free_pba_records fpjTestState 5 3 = [] :=
  C9_replay_empty_range fpjTestState 5 3 (by norm_num)

/-- C2: encoding a pba list of length `N ∈ {0, 1, 2, 1000}` as
`add_free_pba_record` does (`u32` count then `count × u64` pbas) and decoding
the buffer as the visitor body of `get_free_pba_records` does returns the
original list, same length, same elements, same order. -/
theorem C2_record_roundtrip (pbas : List Nat)
    (hN : pbas.length = 0 ∨ pbas.length = 1 ∨ pbas.length = 2
      ∨ pbas.length = 1000)
    (hval : ∀ p ∈ pbas, p < 2 ^ 64) :
    deserialize_free_pba_record (serialize_free_pba_record pbas) = pbas :=
  free_pba_record_roundtrip pbas
    (by rcases hN with h | h | h | h <;> rw [h] <;> norm_num) hval

/-- Witness for C2 at `N = 2`, including the largest `u64` value. -/
theorem C2_record_roundtrip_witness :
    deserialize_free_pba_record
        (serialize_free_pba_record [3, 18446744073709551615])
      = [3, 18446744073709551615] :=
  C2_record_roundtrip [3, 18446744073709551615] (by norm_num)
    (by intro p hp
        rcases List.mem_cons.mp hp with h | h
        · omega
        · simp only [List.mem_singleton] at h; omega)

/-- A store with an empty free-pba journal and no recorded write. -/
def baseState : HomeStateMachineStore :=
  { sb_in_mem := { uuid := 77, commit_lsn := 0, free_pba_store_id := 3 },
    free_pba_entries := [],
    last_write_lsn := 0,
    durable_upto := invalid_lsn }

/-- C3: `add_free_pba_record lsn pbas` hands `write_async` a buffer of exactly
`4 + 8·len` bytes with the `u32` count at offset 0 and the pbas as `u64`
values at offsets 4, 12, …, records `lsn` as `last_write_lsn`, and writes at
store-LSN `lsn − 1`; a record at store-LSN `s` corresponds to consensus-LSN
`s + 1`. -/
theorem C3_add_free_pba_record (s : HomeStateMachineStore) (lsn : Int)
    (pbas : List Nat) (hlen : pbas.length < 2 ^ 32)
    (hval : ∀ p ∈ pbas, p < 2 ^ 64) :
    (add_free_pba_record s lsn pbas).2.2.length = 4 + 8 * pbas.length
    ∧ readU32 (add_free_pba_record s lsn pbas).2.2 0 = pbas.length
    ∧ (∀ i (hi : i < pbas.length),
        readU64 (add_free_pba_record s lsn pbas).2.2 (4 + 8 * i)
          = pbas.get ⟨i, hi⟩)
    ∧ (add_free_pba_record s lsn pbas).1.last_write_lsn = lsn
    ∧ (add_free_pba_record s lsn pbas).2.1 = to_store_lsn lsn
    ∧ logLookup (add_free_pba_record s lsn pbas).1.free_pba_entries
        (to_store_lsn lsn) = some (serialize_free_pba_record pbas)
    ∧ to_repl_lsn (to_store_lsn lsn) = lsn := by
  refine ⟨serialize_length pbas, readU32_serialize pbas hlen,
    fun i hi => readU64_serialize pbas i hi (hval _ (pbas.get_mem i hi)),
    rfl, rfl, logLookup_logWrite _ _ _, ?_⟩
  simp only [to_repl_lsn, to_store_lsn]
  omega

/-- Witness for C3 at `lsn = 7`, `pbas = [5, 6]`: a 20-byte buffer, count 2,
`last_write_lsn = 7`, written at store-LSN 6. -/
theorem C3_add_free_pba_record_witness :
    (add_free_pba_record baseState 7 [5, 6]).2.2.length = 20
    ∧ readU32 (add_free_pba_record baseState 7 [5, 6]).2.2 0 = 2
    ∧ (add_free_pba_record baseState 7 [5, 6]).1.last_write_lsn = 7
    ∧ (add_free_pba_record baseState 7 [5, 6]).2.1 = 6
    ∧ logLookup (add_free_pba_record baseState 7 [5, 6]).1.free_pba_entries 6
        = some (serialize_free_pba_record [5, 6]) := by
  have h := C3_add_free_pba_record baseState 7 [5, 6] (by norm_num)
    (by intro p hp
        rcases List.mem_cons.mp hp with h | h
        · omega
        · simp only [List.mem_singleton] at h; omega)
  exact ⟨h.1, h.2.1, h.2.2.2.1, h.2.2.2.2.1, h.2.2.2.2.2.1⟩

/-- C4: the claim states that `alloc_pbas size` returns a non-empty pba list
covering `size` bytes or fails with OutOfSpace; the source body is the
`TODO: Implementation pending` stub, which returns the empty list for every
size — here evaluated at a 4096-byte request. -/
theorem C4_alloc_pbas_stub_empty : alloc_pbas 4096 = [] := rfl

/-- A journal with records at consensus-LSNs 999, 1000, 1001, 1002 (store-LSNs
998–1001), the S5 truncation scenario of the spec. -/
def truncTestState : HomeStateMachineStore :=
  { sb_in_mem := { uuid := 1, commit_lsn := 1000, free_pba_store_id := 2 },
    free_pba_entries :=
      [(998, serialize_free_pba_record [9]),
       (999, serialize_free_pba_record [10]),
       (1000, serialize_free_pba_record [11]),
       (1001, serialize_free_pba_record [12])],
    last_write_lsn := 1002,
    durable_upto := invalid_lsn }

/-- C5: `remove_free_pba_records_upto lsn` truncates at store-LSN `lsn − 1`:
a stored record survives iff its store-LSN exceeds `lsn − 1`, and
`last_write_lsn` is reset to zero; afterwards a replay of `[1, lsn + 1)`
visits no records while a replay from `lsn + 1` (up to any bound `E` past
the stored records) visits exactly the records with consensus-LSN above
`lsn`. -/
theorem C5_truncate (s : HomeStateMachineStore) (lsn E : Int)
    (hsorted : s.free_pba_entries.Pairwise (fun a b => a.1 < b.1))
    (hE : ∀ e ∈ s.free_pba_entries, to_repl_lsn e.1 < E) :
    (∀ e ∈ s.free_pba_entries,
        e ∈ (remove_free_pba_records_upto s lsn).free_pba_entries
          ↔ to_store_lsn lsn < e.1)
    ∧ (remove_free_pba_records_upto s lsn).last_write_lsn = 0
    ∧ get_free_pba_records (remove_free_pba_records_upto s lsn) 1 (lsn + 1) = []
    ∧ get_free_pba_records (remove_free_pba_records_upto s lsn) (lsn + 1) E
        = (s.free_pba_entries.filter
            (fun e => decide (lsn < to_repl_lsn e.1))).map
            (fun e => (to_repl_lsn e.1, deserialize_free_pba_record e.2)) := by
  have hsorted2 : (remove_free_pba_records_upto s lsn).free_pba_entries.Pairwise
      (fun a b => a.1 < b.1) := hsorted.sublist (List.filter_sublist _)
  refine ⟨?_, rfl, ?_, ?_⟩
  · intro e he
    simp [remove_free_pba_records_upto, List.mem_filter, he]
  · rw [get_free_pba_records_eq _ _ _ hsorted2]
    rw [List.map_eq_nil, List.filter_eq_nil]
    intro e he
    have h1 : to_store_lsn lsn < e.1 := by
      simpa [remove_free_pba_records_upto] using (List.mem_filter.mp he).2
    simp only [to_repl_lsn, to_store_lsn] at h1 ⊢
    simp only [Bool.and_eq_true, decide_eq_true_eq, not_and, not_lt]
    intro _
    omega
  · rw [get_free_pba_records_eq _ _ _ hsorted2]
    show (((s.free_pba_entries.filter _).filter _).map _) = _
    rw [List.filter_filter]
    congr 1
    apply List.filter_congr
    intro e he
    have hEe := hE e he
    simp only [to_repl_lsn, to_store_lsn] at hEe ⊢
    rw [Bool.eq_iff_iff]
    simp only [Bool.and_eq_true, decide_eq_true_eq]
    omega

/-- Witness for C5, the S5 scenario around LSN 1000: after
`remove_free_pba_records_upto 1000`, `last_write_lsn` is zero, replaying
`[1, 1001)` visits nothing and replaying from 1001 visits exactly the two
records after 1000. -/
theorem C5_truncate_witness :
    (remove_free_pba_records_upto truncTestState 1000).last_write_lsn = 0
    ∧ get_free_pba_records
        (remove_free_pba_records_upto truncTestState 1000) 1 (1000 + 1) = []
    ∧ get_free_pba_records
        (remove_free_pba_records_upto truncTestState 1000) (1000 + 1) 2000
        = [(1001, [11]), (1002, [12])] := by
  have h := C5_truncate truncTestState 1000 2000 (by decide) (by decide)
  refine ⟨h.2.1, h.2.2.1, ?_⟩
  rw [h.2.2.2]
  rfl

/-- C6: `flush_free_pba_records` forces durability of the free-pba log store
up to store-LSN `last_write_lsn − 1` when `last_write_lsn` is nonzero; when it
is zero, `flush_sync` is invoked on the invalid sentinel LSN, a no-op. -/
theorem C6_flush (s : HomeStateMachineStore) :
    (s.last_write_lsn ≠ 0 →
      flush_arg s = to_store_lsn s.last_write_lsn
      ∧ to_store_lsn s.last_write_lsn ≤ (flush_free_pba_records s).durable_upto)
    ∧ (s.last_write_lsn = 0 →
      flush_arg s = invalid_lsn ∧ flush_free_pba_records s = s) := by
  constructor
  · intro h
    have harg : flush_arg s = to_store_lsn s.last_write_lsn := by
      simp [flush_arg, h]
    refine ⟨harg, ?_⟩
    have hne : ¬ to_store_lsn s.last_write_lsn = invalid_lsn := by
      simp only [to_store_lsn, invalid_lsn]
      intro hc
      exact h (by omega)
    unfold flush_free_pba_records flush_sync
    rw [harg, if_neg hne]
    exact le_max_right _ _
  · intro h
    have harg : flush_arg s = invalid_lsn := by simp [flush_arg, h]
    exact ⟨harg, by simp [flush_free_pba_records, flush_sync, harg]⟩

/-- A store with `last_write_lsn = 5` and one journal record. -/
def flushTestState : HomeStateMachineStore :=
  { sb_in_mem := { uuid := 9, commit_lsn := 2, free_pba_store_id := 1 },
    free_pba_entries := [(4, serialize_free_pba_record [100])],
    last_write_lsn := 5,
    durable_upto := invalid_lsn }

/-- Witness for C6: with `last_write_lsn = 5` the flush argument is store-LSN
4 and durability reaches at least 4; with `last_write_lsn = 0` the argument is
the invalid sentinel and the state is untouched. -/
theorem C6_flush_witness :
    (flush_arg flushTestState = 4
      ∧ (4 : Int) ≤ (flush_free_pba_records flushTestState).durable_upto)
    ∧ (flush_arg baseState = invalid_lsn
      ∧ flush_free_pba_records baseState = baseState) := by
  refine ⟨?_, (C6_flush baseState).2 rfl⟩
  exact (C6_flush flushTestState).1 (by decide)

/-- C7: `commit_lsn lsn` updates the in-memory superblock so that a subsequent
`get_last_commit_lsn` returns `lsn`, leaves the remaining superblock fields
(`uuid`, `free_pba_store_id`) and the journal content unchanged, and both
operations take the shared (`ReadHolder`) side of the superblock lock. -/
theorem C7_commit_lsn_frame (s : HomeStateMachineStore) (lsn : Int) :
    (get_last_commit_lsn (commit_lsn s lsn).1).1 = lsn
    ∧ (commit_lsn s lsn).1.sb_in_mem.uuid = s.sb_in_mem.uuid
    ∧ (commit_lsn s lsn).1.sb_in_mem.free_pba_store_id
        = s.sb_in_mem.free_pba_store_id
    ∧ (commit_lsn s lsn).1.free_pba_entries = s.free_pba_entries
    ∧ (commit_lsn s lsn).2 = SbLock.shared
    ∧ (get_last_commit_lsn s).2 = SbLock.shared :=
  ⟨rfl, rfl, rfl, rfl, rfl, rfl⟩

/-- C10: truncation stores 0 into `m_last_write_lsn` unconditionally, so a
`flush_free_pba_records` that follows any `remove_free_pba_records_upto` with
no intervening append passes the invalid sentinel to `flush_sync` and is a
no-op — even when records above the truncation point were appended earlier
and are not yet durable. -/
theorem C10_truncate_resets_flush (s : HomeStateMachineStore) (k : Int) :
    flush_arg (remove_free_pba_records_upto s k) = invalid_lsn
    ∧ flush_free_pba_records (remove_free_pba_records_upto s k)
        = remove_free_pba_records_upto s k := by
  constructor
  · rfl
  · simp [flush_free_pba_records, flush_sync, flush_arg,
      remove_free_pba_records_upto]

/-! ### Listener dispatch (ReplicaStateMachine, modelled from the spec)

Only the `ReplicaSetListener` interface and its documentation are among the
sources; the `ReplicaStateMachine` that drives it is not.  Its dispatch is
modelled from the spec (§4.5, invariant 1): each log entry the state machine
delivers is resolved exactly once — `on_rollback` when the entry is being
overwritten (followers only), `on_commit` when consensus commits it — and
each log index is delivered for resolution at most once. -/

/-- A listener callback invocation, identified by callback and LSN. -/
inductive ListenerEvent where
  | commit (lsn : Int)
  | rollback (lsn : Int)
deriving DecidableEq, Repr

/-- One log entry delivered for resolution: its LSN and whether consensus is
overwriting it (rollback) rather than committing it. -/
structure DeliveredEntry where
  lsn : Int
  overwritten : Bool
deriving DecidableEq, Repr

/-- Modelled from the spec: the `ReplicaStateMachine` dispatch (its
implementation is absent from the sources; only the `ReplicaSetListener`
declaration it drives is present).  A delivered entry triggers
`on_rollback lsn` when it is being overwritten and `on_commit lsn`
otherwise. -/
def dispatch_entry (e : DeliveredEntry) : ListenerEvent :=
  if e.overwritten then ListenerEvent.rollback e.lsn else ListenerEvent.commit e.lsn

/-- Modelled from the spec: the sequence of listener callbacks produced by a
run that delivers the given entries in order. -/
def listener_trace (entries : List DeliveredEntry) : List ListenerEvent :=
  entries.map dispatch_entry

theorem count_listener_trace (lsn : Int) (entries : List DeliveredEntry) :
    (listener_trace entries).count (ListenerEvent.commit lsn)
      + (listener_trace entries).count (ListenerEvent.rollback lsn)
      = (entries.map DeliveredEntry.lsn).count lsn := by
  induction entries with
  | nil => rfl
  | cons e rest ih =>
    simp only [listener_trace, List.map_cons, List.count_cons] at ih ⊢
    rcases hov : e.overwritten with _ | _ <;>
      rcases hl : decide (e.lsn = lsn) with _ | _ <;>
      · simp only [dispatch_entry, hov, if_true, if_false, Bool.false_eq_true]
        simp only [decide_eq_true_eq, decide_eq_false_iff_not] at hl
        simp [ListenerEvent.commit.injEq, ListenerEvent.rollback.injEq, hl]
        omega

/-- C8: for every LSN the state machine delivers, exactly one of
`on_commit lsn` or `on_rollback lsn` is invoked — never both and never
neither. -/
theorem C8_commit_rollback_exclusive (entries : List DeliveredEntry) (lsn : Int)
    (hnodup : (entries.map DeliveredEntry.lsn).Nodup)
    (hdelivered : lsn ∈ entries.map DeliveredEntry.lsn) :
    (listener_trace entries).count (ListenerEvent.commit lsn)
      + (listener_trace entries).count (ListenerEvent.rollback lsn) = 1 := by
  rw [count_listener_trace]
  exact List.count_eq_one_of_mem hnodup hdelivered

/-- Witness for C8: in a run that commits LSNs 1 and 3 and rolls back LSN 2,
LSN 2 sees exactly one callback. -/
theorem C8_commit_rollback_exclusive_witness :
    (listener_trace [⟨1, false⟩, ⟨2, true⟩, ⟨3, false⟩]).count
        (ListenerEvent.commit 2)
      + (listener_trace [⟨1, false⟩, ⟨2, true⟩, ⟨3, false⟩]).count
        (ListenerEvent.rollback 2) = 1 :=
  C8_commit_rollback_exclusive [⟨1, false⟩, ⟨2, true⟩, ⟨3, false⟩] 2
    (by decide) (by decide)

end HomeReplication
